import Mathlib

/-!
Verification of the sphinx documentation build configuration (`docs/conf.py`)
of the UST-MICO/grapheditor repository.

The Python code works on JSON values loaded by `json.load`: dicts with string
keys, lists, strings, numbers, booleans and `None`.  We embed those values in
the mutual inductive family `JVal` / `JList` / `JObj` below.  Python's
conflation of a JSON `null` and the Python value `None` is kept: `JVal.nullV`
plays the role of both.  JSON numbers are embedded as integers (the code under
verification never computes with them).  Python exceptions are embedded as
`Except String` results carrying the exception kind in the message.
-/

set_option maxHeartbeats 1000000
set_option maxRecDepth 4000

namespace GrapheditorDocs

mutual

inductive JVal where
  | str : String → JVal
  | num : Int → JVal
  | boolV : Bool → JVal
  | nullV : JVal
  | arr : JList → JVal
  | obj : JObj → JVal
deriving DecidableEq

inductive JList where
  | nil : JList
  | cons : JVal → JList → JList
deriving DecidableEq

inductive JObj where
  | nil : JObj
  | cons : String → JVal → JObj → JObj
deriving DecidableEq

end

/-- Looks a key up in an embedded dict (first occurrence wins, as in a Python
dict, which cannot hold a key twice). -/
def JObj.lookup? : JObj → String → Option JVal
  | .nil, _ => none
  | .cons k v rest, key => if k = key then some v else rest.lookup? key

/-- Python `d.get(key)` on a JSON-loaded dict: a missing key and a stored JSON
`null` both come back as `None`. -/
def dictGet (o : JObj) (key : String) : JVal :=
  (o.lookup? key).getD .nullV

/-- Python `d.get(key, default)`: the default is only used when the key is
absent (a stored `null` is returned as `None`, not as the default). -/
def dictGetD (o : JObj) (key : String) (default : JVal) : JVal :=
  (o.lookup? key).getD default

/-- Python `key in d` for a string key. -/
def JObj.hasKey : JObj → String → Bool
  | .nil, _ => false
  | .cons k _ rest, key => k = key || rest.hasKey key

/-- Python truthiness of a JSON-loaded value (`bool(v)`). -/
def jFalsy : JVal → Bool
  | .str s => s = ""
  | .num n => n = 0
  | .boolV b => !b
  | .nullV => true
  | .arr .nil => true
  | .arr (.cons _ _) => false
  | .obj .nil => true
  | .obj (.cons _ _ _) => false

def jTruthy (v : JVal) : Bool := !jFalsy v

/-- Python attribute access `v.get(...)` requires `v` to be a dict; any other
value raises `AttributeError`. -/
def asObj : JVal → Except String JObj
  | .obj o => .ok o
  | _ => .error "AttributeError"

/-- Iterating a JSON value as the code does (`for x in v`) is embedded only
for lists; every other value makes the surrounding code raise. -/
def asList : JVal → Except String JList
  | .arr l => .ok l
  | _ => .error "TypeError: not iterable"

/-- Using a JSON value where Python needs a `str` (string concatenation,
`str.join` items); any other value raises `TypeError`. -/
def asStr : JVal → Except String String
  | .str s => .ok s
  | _ => .error "TypeError: expected str"

/-- Membership `("originalName", v)` of a key/value pair in an embedded dict. -/
def JObj.MemKV (k : String) (v : JVal) : JObj → Prop
  | .nil => False
  | .cons k' v' rest => (k' = k ∧ v' = v) ∨ JObj.MemKV k v rest

/-! ## A model of `pathlib` posix paths

`sanitize_typedoc_json` uses `Path(filepath).relative_to(abs_source_path)`.
We model a posix path by its list of components: split on `/`, dropping empty
components and `.` components, exactly as `PurePosixPath.parts` normalises,
plus a flag for absoluteness (the leading `/`). -/

/-- Splits a character list at every `/`. -/
def splitRaw : List Char → List Char → List String
  | [], acc => [String.mk acc.reverse]
  | c :: rest, acc =>
    if c = '/' then String.mk acc.reverse :: splitRaw rest []
    else splitRaw rest (c :: acc)

/-- The normalised components of a posix path string (`PurePosixPath.parts`
without the root entry). -/
def splitPath (s : String) : List String :=
  (splitRaw s.data []).filter (fun c => c ≠ "" && c ≠ ".")

/-- Whether a posix path string is absolute (starts with `/`). -/
def isAbsPath (s : String) : Bool :=
  match s.data with
  | [] => false
  | c :: _ => c = '/'

/-- Joins components back into the string `str(path)` form; an empty component
list renders as `.`, as `str(Path('.'))` does. -/
def joinPath : List String → String
  | [] => "."
  | [c] => c
  | c :: c2 :: rest => c ++ "/" ++ joinPath (c2 :: rest)

/-- Embeds `str(Path(p).relative_to(base))`: succeeds exactly when `base`'s
components are a leading prefix of `p`'s components (and both paths agree on
absoluteness), otherwise raises `ValueError`. -/
def relativeTo (p base : String) : Except String String :=
  if isAbsPath p = isAbsPath base ∧ (splitPath base).isPrefixOf (splitPath p) then
    .ok (joinPath ((splitPath p).drop (splitPath base).length))
  else
    .error "ValueError: not a subpath"

/-! ## `sanitize_typedoc_json` (docs/conf.py, lines 119-133)

The Python function mutates the loaded JSON in place; we embed it as a
function from the value to the rewritten value.  A raised exception
(`ValueError` from `relative_to`, `TypeError` from `Path(non-string)`)
becomes an `Except.error`.  Note the exact recursion structure of the source:
for a dict value the function recurses, for a list value it calls itself on
every entry (so an entry that is itself a list is returned unchanged, because
the function returns immediately on non-dict arguments), and after the
recursion the value under the key `originalName` is rewritten when truthy. -/

/-- The rewrite applied to a value stored under `originalName`: falsy values
are left alone; a truthy string is replaced by its path relative to the
typescript source folder; any other truthy value makes `Path(...)` raise
`TypeError`. -/
def rewriteOriginalName (base : String) (v : JVal) : Except String JVal :=
  if jFalsy v then .ok v
  else asStr v >>= fun s => (relativeTo s base).map .str

mutual

/-- Embeds `sanitize_typedoc_json` itself: non-dict arguments are returned
unchanged, dict arguments are rewritten key by key. -/
def sanitize_typedoc_json (base : String) : JVal → Except String JVal
  | .obj o => (sanitizeObj base o).map .obj
  | v => .ok v

/-- Per-key processing of a dict inside `sanitize_typedoc_json`: recurse into
the value (`sanitizeInner`), then rewrite the value when the key is
`originalName`, then continue with the remaining keys. -/
def sanitizeObj (base : String) : JObj → Except String JObj
  | .nil => .ok .nil
  | .cons k v rest =>
    sanitizeInner base v >>= fun v1 =>
    (if k = "originalName" then rewriteOriginalName base v1 else .ok v1) >>= fun v2 =>
    sanitizeObj base rest >>= fun rest' =>
    .ok (.cons k v2 rest')

/-- The two `isinstance` recursions performed on a value stored in a dict:
recurse for a dict value, recurse into every entry of a list value, leave any
other value unchanged. -/
def sanitizeInner (base : String) : JVal → Except String JVal
  | .obj o => (sanitizeObj base o).map JVal.obj
  | .arr l => (sanitizeList base l).map JVal.arr
  | v => .ok v

/-- The `for entry in typedoc[key]` loop of `sanitize_typedoc_json`; each
entry goes through the whole function again, which returns immediately on
non-dict entries. -/
def sanitizeList (base : String) : JList → Except String JList
  | .nil => .ok .nil
  | .cons v rest =>
    sanitize_typedoc_json base v >>= fun v' =>
    sanitizeList base rest >>= fun rest' =>
    .ok (.cons v' rest')

end

mutual

/-- The dicts reachable from a JSON value through nested dicts and list
entries, with no restriction on nesting — the reachability relation the
specification sentence quantifies over. -/
def claimReach : JVal → List JObj
  | .obj o => o :: claimReachObj o
  | .arr l => claimReachList l
  | _ => []

/-- Dicts reachable from the values of a dict (specification reachability). -/
def claimReachObj : JObj → List JObj
  | .nil => []
  | .cons _ v rest => claimReach v ++ claimReachObj rest

/-- Dicts reachable from the entries of a list (specification reachability). -/
def claimReachList : JList → List JObj
  | .nil => []
  | .cons v rest => claimReach v ++ claimReachList rest

end

/-! ## Facts about the path model -/

theorem except_bind_ok {ε α β : Type} (a : α) (f : α → Except ε β) :
    (Except.ok a >>= f : Except ε β) = f a := rfl

theorem except_bind_error {ε α β : Type} (e : ε) (f : α → Except ε β) :
    (Except.error e >>= f : Except ε β) = Except.error e := rfl

theorem splitRaw_no_slash (l : List Char) (acc : List Char)
    (hacc : ∀ c ∈ acc, c ≠ '/') :
    ∀ s ∈ splitRaw l acc, ∀ c ∈ s.data, c ≠ '/' := by
  induction l generalizing acc with
  | nil =>
    intro s hs c hc
    simp only [splitRaw, List.mem_singleton] at hs
    subst hs
    exact hacc c (List.mem_reverse.mp hc)
  | cons ch rest ih =>
    intro s hs c hc
    rw [splitRaw] at hs
    split at hs
    · rcases List.mem_cons.mp hs with hs | hs
      · subst hs
        exact hacc c (List.mem_reverse.mp hc)
      · exact ih [] (by simp) s hs c hc
    · rename_i h
      refine ih (ch :: acc) ?_ s hs c hc
      intro c' hc'
      rcases List.mem_cons.mp hc' with h' | h'
      · subst h'; exact h
      · exact hacc c' h'

theorem splitPath_mem (s : String) :
    ∀ c ∈ splitPath s, c ≠ "" ∧ c ≠ "." ∧ ∀ ch ∈ c.data, ch ≠ '/' := by
  intro c hc
  have h1 := List.mem_filter.mp hc
  have h2 := h1.2
  simp only [Bool.and_eq_true, decide_eq_true_eq, ne_eq] at h2
  exact ⟨h2.1, h2.2, splitRaw_no_slash s.data [] (by simp) c h1.1⟩

theorem joinPath_not_abs :
    ∀ comps : List String,
      (∀ c ∈ comps, c ≠ "" ∧ ∀ ch ∈ c.data, ch ≠ '/') →
      isAbsPath (joinPath comps) = false
  | [], _ => rfl
  | [c], h => by
    have hc := h c (by simp)
    rw [joinPath, isAbsPath]
    cases hd : c.data with
    | nil => exact absurd (String.ext hd) hc.1
    | cons ch t =>
      simp only [decide_eq_false_iff_not]
      exact hc.2 ch (by rw [hd]; exact List.mem_cons_self ch t)
  | c :: c2 :: rest, h => by
    have hc := h c (by simp)
    rw [joinPath, isAbsPath]
    have hdata : (c ++ "/" ++ joinPath (c2 :: rest)).data
        = c.data ++ ("/".data ++ (joinPath (c2 :: rest)).data) := by
      rw [String.data_append (c ++ "/") (joinPath (c2 :: rest)),
        String.data_append c "/", List.append_assoc]
    cases hd : c.data with
    | nil => exact absurd (String.ext hd) hc.1
    | cons ch t =>
      rw [hd] at hdata
      simp only [hdata, List.cons_append, decide_eq_false_iff_not]
      exact hc.2 ch (by rw [hd]; exact List.mem_cons_self ch t)

theorem splitRaw_no_slash_all (l : List Char) :
    ∀ acc, (∀ c ∈ l, c ≠ '/') → splitRaw l acc = [String.mk (acc.reverse ++ l)] := by
  induction l with
  | nil => intro acc _; simp [splitRaw]
  | cons c rest ih =>
    intro acc hl
    rw [splitRaw, if_neg (hl c (by simp))]
    rw [ih (c :: acc) (fun x hx => hl x (List.mem_cons_of_mem c hx))]
    simp [List.reverse_cons, List.append_assoc]

theorem splitRaw_split (l1 l2 : List Char) :
    ∀ acc, (∀ c ∈ l1, c ≠ '/') →
      splitRaw (l1 ++ '/' :: l2) acc = String.mk (acc.reverse ++ l1) :: splitRaw l2 [] := by
  induction l1 with
  | nil =>
    intro acc _
    rw [List.nil_append, splitRaw, if_pos rfl]
    simp
  | cons c rest ih =>
    intro acc h1
    rw [List.cons_append, splitRaw, if_neg (h1 c (by simp))]
    rw [ih (c :: acc) (fun x hx => h1 x (List.mem_cons_of_mem c hx))]
    simp [List.reverse_cons, List.append_assoc]

theorem string_mk_data (s : String) : String.mk s.data = s := rfl

/-- Splitting is a left inverse of joining for normalised components (the
components produced by `splitPath` are non-empty, are not `.` and contain no
slash). -/
theorem splitPath_joinPath :
    ∀ comps : List String,
      (∀ c ∈ comps, c ≠ "" ∧ c ≠ "." ∧ ∀ ch ∈ c.data, ch ≠ '/') →
      splitPath (joinPath comps) = comps
  | [], _ => rfl
  | [c], h => by
    have hc := h c (by simp)
    rw [joinPath, splitPath, splitRaw_no_slash_all c.data [] hc.2.2]
    rw [List.reverse_nil, List.nil_append, string_mk_data]
    rw [List.filter_cons_of_pos (by simp [hc.1, hc.2.1])]
    rfl
  | c :: c2 :: rest, h => by
    have hc := h c (by simp)
    have hdata : (c ++ "/" ++ joinPath (c2 :: rest)).data
        = c.data ++ '/' :: (joinPath (c2 :: rest)).data := by
      rw [String.data_append (c ++ "/") (joinPath (c2 :: rest)),
        String.data_append c "/", List.append_assoc]
      rfl
    have ih := splitPath_joinPath (c2 :: rest) (fun x hx => h x (List.mem_cons_of_mem c hx))
    rw [joinPath, splitPath, hdata,
      splitRaw_split c.data (joinPath (c2 :: rest)).data [] hc.2.2]
    rw [List.reverse_nil, List.nil_append, string_mk_data]
    rw [List.filter_cons_of_pos (by simp [hc.1, hc.2.1])]
    rw [splitPath] at ih
    rw [ih]

/-- What a successful `relative_to` means: the components of `p` are exactly
the components of `base` followed by the components of the result — the
source-path prefix is removed — and the result is a relative path. -/
theorem relativeTo_spec (p base r : String) (h : relativeTo p base = .ok r) :
    splitPath p = splitPath base ++ splitPath r ∧ isAbsPath r = false := by
  rw [relativeTo] at h
  split at h
  · rename_i hcond
    injection h with h
    obtain ⟨t, ht⟩ := List.isPrefixOf_iff_prefix.mp hcond.2
    have hdrop : (splitPath p).drop (splitPath base).length = t := by
      rw [← ht, List.drop_left]
    have hmem : ∀ c ∈ t, c ≠ "" ∧ c ≠ "." ∧ ∀ ch ∈ c.data, ch ≠ '/' := by
      intro c hcm
      exact splitPath_mem p c (by rw [← ht]; exact List.mem_append_right _ hcm)
    constructor
    · rw [← h, hdrop, splitPath_joinPath t hmem, ← ht]
    · rw [← h, hdrop]
      apply joinPath_not_abs
      intro c hcm
      exact ⟨(hmem c hcm).1, (hmem c hcm).2.2⟩
  · exact absurd h (by simp)

/-! ## The input/output correspondence established by `sanitize_typedoc_json`

The relations below state, recursively along the dicts the traversal
reaches, exactly what the rewrite does: keys and their order are preserved
in every rewritten dict; under `originalName` a falsy value survives
unchanged and every other value is a string replaced by its path relative to
the source folder; under every other key a dict corresponds recursively, a
list entry by entry, and anything else — including a list nested inside a
list, which the traversal does not enter — is unchanged. -/

/-- The disposition of the value stored under `originalName` in a rewritten
dict. -/
def nameCorr (base : String) (v v' : JVal) : Prop :=
  (jFalsy v = true ∧ v' = v) ∨
  (∃ s r, v = .str s ∧ v' = .str r ∧ relativeTo s base = .ok r)

mutual

/-- Correspondence for one whole `sanitize_typedoc_json` call (the root, or
one list entry): a dict corresponds key by key, every other value —
including a list nested inside a list, which the function does not enter —
is unchanged. -/
inductive EntryCorr (base : String) : JVal → JVal → Prop where
  | obj {p p' : JObj} : ObjCorr base p p' → EntryCorr base (.obj p) (.obj p')
  | keepStr (s : String) : EntryCorr base (.str s) (.str s)
  | keepNum (n : Int) : EntryCorr base (.num n) (.num n)
  | keepBool (b : Bool) : EntryCorr base (.boolV b) (.boolV b)
  | keepNull : EntryCorr base .nullV .nullV
  | keepArr (l : JList) : EntryCorr base (.arr l) (.arr l)

/-- Correspondence of a rewritten dict, at every depth the traversal
reaches: the keys and their order are preserved; under `originalName` the
value is rewritten as `nameCorr` describes; under every other key the value
corresponds as `ValCorr` describes. -/
inductive ObjCorr (base : String) : JObj → JObj → Prop where
  | nil : ObjCorr base .nil .nil
  | consName {v v' : JVal} {r r' : JObj} :
      nameCorr base v v' → ObjCorr base r r' →
      ObjCorr base (.cons "originalName" v r) (.cons "originalName" v' r')
  | consOther {k : String} {v v' : JVal} {r r' : JObj} :
      k ≠ "originalName" → ValCorr base v v' → ObjCorr base r r' →
      ObjCorr base (.cons k v r) (.cons k v' r')

/-- Correspondence of a value stored under a key other than `originalName`:
a dict corresponds recursively, a list entry by entry, any other value is
unchanged. -/
inductive ValCorr (base : String) : JVal → JVal → Prop where
  | obj {p p' : JObj} : ObjCorr base p p' → ValCorr base (.obj p) (.obj p')
  | arr {l l' : JList} : ListCorr base l l' → ValCorr base (.arr l) (.arr l')
  | keepStr (s : String) : ValCorr base (.str s) (.str s)
  | keepNum (n : Int) : ValCorr base (.num n) (.num n)
  | keepBool (b : Bool) : ValCorr base (.boolV b) (.boolV b)
  | keepNull : ValCorr base .nullV .nullV

/-- Entry-by-entry correspondence of a rewritten list value. -/
inductive ListCorr (base : String) : JList → JList → Prop where
  | nil : ListCorr base .nil .nil
  | cons {v v' : JVal} {r r' : JList} :
      EntryCorr base v v' → ListCorr base r r' →
      ListCorr base (.cons v r) (.cons v' r')

end

theorem valCorr_falsy (base : String) (v v1 : JVal)
    (hc : ValCorr base v v1) (hf : jFalsy v1 = true) : v1 = v := by
  cases hc with
  | obj hpo =>
    rename_i p p'
    cases p' with
    | nil =>
      cases hpo with
      | nil => rfl
    | cons k1 w1 r1 => exact Bool.noConfusion hf
  | arr hlo =>
    rename_i l l'
    cases l' with
    | nil =>
      cases hlo with
      | nil => rfl
    | cons w1 r1 => exact Bool.noConfusion hf
  | keepStr s => rfl
  | keepNum n => rfl
  | keepBool b => rfl
  | keepNull => rfl

theorem valCorr_str (base : String) (v : JVal) (s : String)
    (hc : ValCorr base v (.str s)) : v = .str s := by
  cases hc with
  | keepStr s => rfl

/-- A successful `originalName` rewrite relates the pre-recursion value and
the stored result as `nameCorr` describes. -/
theorem rewrite_nameCorr (base : String) (v v1 v2 : JVal)
    (hc : ValCorr base v v1) (hr : rewriteOriginalName base v1 = .ok v2) :
    nameCorr base v v2 := by
  by_cases hf : jFalsy v1 = true
  · rw [rewriteOriginalName, if_pos hf] at hr
    injection hr with hr
    have he : v1 = v := valCorr_falsy base v v1 hc hf
    left
    rw [← he]
    exact ⟨hf, hr.symm⟩
  · rw [rewriteOriginalName, if_neg hf] at hr
    cases v1 with
    | str s =>
      rw [asStr, except_bind_ok] at hr
      cases hrel : relativeTo s base with
      | error e => rw [hrel] at hr; exact absurd hr (by simp [Except.map])
      | ok r =>
        rw [hrel] at hr
        simp only [Except.map] at hr
        injection hr with hr
        right
        exact ⟨s, r, valCorr_str base v s hc, hr.symm, hrel⟩
    | num n => exact absurd hr (by simp [asStr, except_bind_error])
    | boolV b => exact absurd hr (by simp [asStr, except_bind_error])
    | nullV => exact absurd hr (by simp [asStr, except_bind_error])
    | arr l => exact absurd hr (by simp [asStr, except_bind_error])
    | obj p => exact absurd hr (by simp [asStr, except_bind_error])

mutual

theorem sanitizeVal_corr (base : String) :
    ∀ j j', sanitize_typedoc_json base j = .ok j' → EntryCorr base j j'
  | .obj p, j', h => by
    rw [sanitize_typedoc_json] at h
    cases hp : sanitizeObj base p with
    | error e => rw [hp] at h; exact absurd h (by simp [Except.map])
    | ok p' =>
      rw [hp] at h
      simp only [Except.map] at h
      injection h with h
      rw [← h]
      exact EntryCorr.obj (sanitizeObj_corr base p p' hp)
  | .str s, j', h => by injection h with h; rw [← h]; exact EntryCorr.keepStr s
  | .num n, j', h => by injection h with h; rw [← h]; exact EntryCorr.keepNum n
  | .boolV b, j', h => by injection h with h; rw [← h]; exact EntryCorr.keepBool b
  | .nullV, j', h => by injection h with h; rw [← h]; exact EntryCorr.keepNull
  | .arr l, j', h => by injection h with h; rw [← h]; exact EntryCorr.keepArr l

theorem sanitizeObj_corr (base : String) :
    ∀ p p', sanitizeObj base p = .ok p' → ObjCorr base p p'
  | .nil, p', h => by
    injection h with h
    rw [← h]
    exact ObjCorr.nil
  | .cons k v rest, p', h => by
    rw [sanitizeObj] at h
    cases h1 : sanitizeInner base v with
    | error e => rw [h1, except_bind_error] at h; exact absurd h (by simp)
    | ok v1 =>
      rw [h1, except_bind_ok] at h
      cases h2 : (if k = "originalName" then rewriteOriginalName base v1 else .ok v1) with
      | error e => rw [h2, except_bind_error] at h; exact absurd h (by simp)
      | ok v2 =>
        rw [h2, except_bind_ok] at h
        cases h3 : sanitizeObj base rest with
        | error e => rw [h3, except_bind_error] at h; exact absurd h (by simp)
        | ok rest' =>
          rw [h3, except_bind_ok] at h
          injection h with h
          rw [← h]
          by_cases hk : k = "originalName"
          · rw [if_pos hk] at h2
            subst hk
            exact ObjCorr.consName
              (rewrite_nameCorr base v v1 v2 (sanitizeInner_corr base v v1 h1) h2)
              (sanitizeObj_corr base rest rest' h3)
          · rw [if_neg hk] at h2
            injection h2 with h2
            rw [← h2]
            exact ObjCorr.consOther hk (sanitizeInner_corr base v v1 h1)
              (sanitizeObj_corr base rest rest' h3)

theorem sanitizeInner_corr (base : String) :
    ∀ v v1, sanitizeInner base v = .ok v1 → ValCorr base v v1
  | .obj p, v1, h => by
    rw [sanitizeInner] at h
    cases hp : sanitizeObj base p with
    | error e => rw [hp] at h; exact absurd h (by simp [Except.map])
    | ok p' =>
      rw [hp] at h
      simp only [Except.map] at h
      injection h with h
      rw [← h]
      exact ValCorr.obj (sanitizeObj_corr base p p' hp)
  | .arr l, v1, h => by
    rw [sanitizeInner] at h
    cases hl : sanitizeList base l with
    | error e => rw [hl] at h; exact absurd h (by simp [Except.map])
    | ok l' =>
      rw [hl] at h
      simp only [Except.map] at h
      injection h with h
      rw [← h]
      exact ValCorr.arr (sanitizeList_corr base l l' hl)
  | .str s, v1, h => by injection h with h; rw [← h]; exact ValCorr.keepStr s
  | .num n, v1, h => by injection h with h; rw [← h]; exact ValCorr.keepNum n
  | .boolV b, v1, h => by injection h with h; rw [← h]; exact ValCorr.keepBool b
  | .nullV, v1, h => by injection h with h; rw [← h]; exact ValCorr.keepNull

theorem sanitizeList_corr (base : String) :
    ∀ l l', sanitizeList base l = .ok l' → ListCorr base l l'
  | .nil, l', h => by
    injection h with h
    rw [← h]
    exact ListCorr.nil
  | .cons v rest, l', h => by
    rw [sanitizeList] at h
    cases h1 : sanitize_typedoc_json base v with
    | error e => rw [h1, except_bind_error] at h; exact absurd h (by simp)
    | ok v' =>
      rw [h1, except_bind_ok] at h
      cases h2 : sanitizeList base rest with
      | error e => rw [h2, except_bind_error] at h; exact absurd h (by simp)
      | ok rest' =>
        rw [h2, except_bind_ok] at h
        injection h with h
        rw [← h]
        exact ListCorr.cons (sanitizeVal_corr base v v' h1)
          (sanitizeList_corr base rest rest' h2)

end

/-! ## Claim C1 -/

/-- The absolute typescript project folder used in the concrete instances. -/
def cBase : String := "/project/src"

/-- A dict carrying an absolute path under `originalName`. -/
def cInner : JObj := .cons "originalName" (.str "/project/src/deep.ts") .nil

/-- A JSON value in which that dict sits behind two levels of list nesting
(a list entry that is itself a list). -/
def cNested : JVal :=
  .obj (.cons "x" (.arr (.cons (.arr (.cons (.obj cInner) .nil)) .nil)) .nil)

/-- A dict storing `None` (a JSON null) under `originalName`. -/
def cNullName : JObj := .cons "originalName" JVal.nullV .nil

/-- C1 counterexample, in two parts.  First, `sanitize_typedoc_json` leaves
`cNested` completely unchanged, although the dict `cInner` is reachable from
the root through nested dicts and list entries and still stores the absolute
path `/project/src/deep.ts` (which `relative_to` could have rewritten to
`deep.ts`) under `originalName`: the traversal does not enter lists nested
inside lists.  Second, a falsy `None` stored under `originalName` in a dict
the traversal does reach survives a successful run unchanged, so not every
value under the key ends up a path with the prefix removed.  Both parts
refute the claim as stated. -/
theorem C1_counterexample :
    (sanitize_typedoc_json cBase cNested = Except.ok cNested ∧
      cInner ∈ claimReach cNested ∧
      JObj.MemKV "originalName" (JVal.str "/project/src/deep.ts") cInner ∧
      isAbsPath "/project/src/deep.ts" = true ∧
      relativeTo "/project/src/deep.ts" cBase = Except.ok "deep.ts") ∧
    (sanitize_typedoc_json cBase (JVal.obj cNullName) = Except.ok (JVal.obj cNullName) ∧
      JObj.MemKV "originalName" JVal.nullV cNullName) :=
  ⟨⟨rfl, by decide, Or.inl ⟨rfl, rfl⟩, rfl, rfl⟩, rfl, Or.inl ⟨rfl, rfl⟩⟩

/-- C1 (amended): a successful run of `sanitize_typedoc_json` relates output
to input by `EntryCorr`: in every dict the traversal reaches — nested dicts,
and dict entries of lists stored in dicts, but not anything behind a list
nested inside another list, which is left unchanged — the keys and their
order are preserved; under `originalName` a falsy value is unchanged and
every other value is a string replaced by `relative_to` of itself; under
every other key a dict value corresponds recursively, a list value entry by
entry, and any other value is unchanged.  The second conjunct spells out
that the `relative_to` rewrite removes the absolute source-path prefix: the
components of the original are exactly the components of the base followed
by those of the result, and the result is relative. -/
theorem C1_sanitize_amended (base : String) (j j' : JVal)
    (hs : sanitize_typedoc_json base j = .ok j') :
    EntryCorr base j j' ∧
    ∀ s r : String, relativeTo s base = .ok r →
      splitPath s = splitPath base ++ splitPath r ∧ isAbsPath r = false :=
  ⟨sanitizeVal_corr base j j' hs, fun s r hr => relativeTo_spec s base r hr⟩

/-- A one-key dict with an absolute `originalName`, used as witness input. -/
def wIn : JVal := .obj (.cons "originalName" (.str "/project/src/a.ts") .nil)

/-- The sanitized form of `wIn`. -/
def wOut : JVal := .obj (.cons "originalName" (.str "a.ts") .nil)

theorem C1_sanitize_amended_witness :
    EntryCorr cBase wIn wOut ∧
    (splitPath "/project/src/a.ts" = splitPath cBase ++ splitPath "a.ts" ∧
      isAbsPath "a.ts" = false) :=
  ⟨(C1_sanitize_amended cBase wIn wOut rfl).1,
    (C1_sanitize_amended cBase wIn wOut rfl).2 "/project/src/a.ts" "a.ts" rfl⟩

/-! ## Python `str.replace`

Both the description rewriting (backtick doubling) and the `_fields` patch
use `str.replace`.  For a non-empty pattern Python scans left to right and
replaces non-overlapping occurrences; each scan step consumes at least one
character, so the length of the subject string is sufficient fuel. -/

/-- The scan of `str.replace` over the character list of the subject. -/
def replaceAux (pat repl : List Char) : Nat → List Char → List Char
  | _, [] => []
  | 0, l => l
  | fuel + 1, c :: rest =>
    if pat.isPrefixOf (c :: rest) ∧ pat ≠ [] then
      repl ++ replaceAux pat repl fuel ((c :: rest).drop pat.length)
    else
      c :: replaceAux pat repl fuel rest

/-- Python `s.replace(pat, repl)` for a non-empty pattern. -/
def pyReplace (s pat repl : String) : String :=
  String.mk (replaceAux pat.data repl.data s.data.length s.data)

/-! ## Claim C9: the patched `JsRenderer._fields` (docs/conf.py, lines 339-346) -/

/-- Embeds `new_fields`: the pairs produced by the original `_fields`
generator are the input list (the original is third-party code, so the list
is universally quantified); each yielded pair keeps its tail and maps
`h.replace(' ', '\ ')` over its heads. -/
def new_fields {τ : Type} (old : List (List String × τ)) : List (List String × τ) :=
  old.map (fun f => (f.1.map (fun h => pyReplace h " " "\\ "), f.2))

/-- The specification's wording of the head rewrite: every space character is
replaced by a backslash-escaped space, all other characters are kept. -/
def escapeSpacesSpec : List Char → List Char
  | [] => []
  | c :: rest => (if c = ' ' then ['\\', ' '] else [c]) ++ escapeSpacesSpec rest

theorem replaceAux_space_spec :
    ∀ fuel l, l.length ≤ fuel →
      replaceAux [' '] ['\\', ' '] fuel l = escapeSpacesSpec l := by
  intro fuel
  induction fuel with
  | zero =>
    intro l hl
    cases l with
    | nil => rfl
    | cons c rest => exact absurd hl (by simp)
  | succ n ih =>
    intro l hl
    cases l with
    | nil => rfl
    | cons c rest =>
      rw [replaceAux, escapeSpacesSpec]
      by_cases hc : c = ' '
      · rw [if_pos ⟨by simp [List.isPrefixOf, hc], by simp⟩, if_pos hc]
        simp only [List.length_cons] at hl
        simp only [List.length_singleton, List.drop_succ_cons, List.drop_zero]
        rw [ih rest (by omega)]
      · rw [if_neg ?_, if_neg hc]
        · simp only [List.length_cons] at hl
          rw [ih rest (by omega)]
          rfl
        · intro hcontra
          have := hcontra.1
          simp only [List.isPrefixOf, List.isPrefixOf_nil_left, Bool.and_true, beq_iff_eq] at this
          exact hc this.symm

theorem pyReplace_space_spec (h : String) :
    pyReplace h " " "\\ " = String.mk (escapeSpacesSpec h.data) := by
  rw [pyReplace]
  rw [replaceAux_space_spec h.data.length h.data (Nat.le_refl _)]

/-- C9: the patched `_fields` yields exactly one pair for each pair yielded
by the original `_fields`, in the same order, with every tail unchanged and
every head string equal to the original head with each space character
replaced by a backslash-escaped space. -/
theorem C9_new_fields {τ : Type} (old : List (List String × τ)) :
    List.Forall₂
      (fun p q => q.2 = p.2 ∧
        q.1 = p.1.map (fun h => String.mk (escapeSpacesSpec h.data)))
      old (new_fields old) := by
  have hf : (fun h : String => pyReplace h " " "\\ ")
      = fun h : String => String.mk (escapeSpacesSpec h.data) :=
    funext pyReplace_space_spec
  induction old with
  | nil => exact List.Forall₂.nil
  | cons f rest ih =>
    refine List.Forall₂.cons ⟨rfl, ?_⟩ ih
    rw [← hf]

/-! ## Claim C5: the `OSError` handler of `_load_typedoc_output`
(docs/conf.py, lines 110-117) -/

/-- The typedoc command configured at the top of `conf.py`. -/
def TS_DOC_COMMAND : List String := ["npm", "run", "doc", "--"]

/-- `command.program` is built from the first entry of `TS_DOC_COMMAND`. -/
def typedocProgram : String := TS_DOC_COMMAND.headD ""

/-- `errno.ENOENT`. -/
def ENOENT : Int := 2

/-- The information carried by a Python `OSError`: its errno (possibly
`None`) and its message. -/
structure OSErrorInfo where
  errno : Option Int
  msg : String
deriving DecidableEq

/-- What the handler turns a failed typedoc invocation into: a raised
`SphinxError`, or the original exception re-raised. -/
inductive InvokeOutcome where
  | sphinxError (msg : String)
  | reraised (e : OSErrorInfo)
deriving DecidableEq

/-- Embeds the `except OSError as exc` handler around `subprocess.call` in
`_load_typedoc_output`: `exc.errno == ENOENT` raises
`SphinxError('%s was not found. Install it using "npm install -g typedoc".' %
command.program)`; everything else is re-raised by the bare `raise`. -/
def handleTypedocOSError (program : String) (e : OSErrorInfo) : InvokeOutcome :=
  if e.errno = some ENOENT then
    .sphinxError (program ++ " was not found. Install it using \"npm install -g typedoc\".")
  else
    .reraised e

/-- C5: when invoking typedoc fails with an `OSError` whose errno is
`ENOENT`, a `SphinxError` telling the user to install typedoc is raised; any
other `OSError` is re-raised unchanged. -/
theorem C5_oserror_handling (e : OSErrorInfo) :
    (e.errno = some ENOENT →
      handleTypedocOSError typedocProgram e =
        .sphinxError "npm was not found. Install it using \"npm install -g typedoc\".") ∧
    (e.errno ≠ some ENOENT →
      handleTypedocOSError typedocProgram e = .reraised e) := by
  constructor
  · intro h
    rw [handleTypedocOSError, if_pos h]
    rfl
  · intro h
    rw [handleTypedocOSError, if_neg h]

theorem C5_oserror_handling_witness :
    handleTypedocOSError typedocProgram ⟨some 2, "m"⟩ =
      .sphinxError "npm was not found. Install it using \"npm install -g typedoc\"." ∧
    handleTypedocOSError typedocProgram ⟨some 13, "denied"⟩ =
      .reraised ⟨some 13, "denied"⟩ :=
  ⟨(C5_oserror_handling ⟨some 2, "m"⟩).1 rfl,
    (C5_oserror_handling ⟨some 13, "denied"⟩).2 (by decide)⟩

/-! ## Claim C6: build-time configuration values (docs/conf.py, lines 379-393) -/

/-- Collects the items of a list for `str.join`; a non-string item raises
`TypeError`. -/
def jlistStrs : JList → Except String (List String)
  | .nil => .ok []
  | .cons v rest =>
    asStr v >>= fun s =>
    jlistStrs rest >>= fun ss =>
    .ok (s :: ss)

/-- Python `sep.join(x)`: joins the items when `x` is a list of strings and
joins the characters when `x` is itself a string (which happens for the
string default `'Fabian Bühler'`); any other argument raises `TypeError`. -/
def pyJoin (sep : String) : JVal → Except String String
  | .str s => .ok (String.intercalate sep (s.data.map String.singleton))
  | .arr l => (jlistStrs l).map (String.intercalate sep)
  | _ => .error "TypeError: can only join an iterable"

/-- `version = package_json.get("version", doc_package_config.get("version"))`. -/
def confVersion (packageJson poetry : JObj) : JVal :=
  dictGetD packageJson "version" (dictGet poetry "version")

/-- `release = sphinx_config.get("release", version)`. -/
def confRelease (sphinxConfig : JObj) (version : JVal) : JVal :=
  dictGetD sphinxConfig "release" version

/-- `author = package_json.get("author", ", ".join(...))`: the joined
default argument is evaluated before the lookup, as in Python, so a join
failure propagates even when `author` is present. -/
def confAuthor (packageJson poetry : JObj) : Except String JVal :=
  (pyJoin ", " (dictGetD poetry "authors" (.str "Fabian Bühler"))).map
    (fun joined => dictGetD packageJson "author" (.str joined))

/-- C6: version comes from package.json with fallback to the poetry table;
release comes from the sphinx table with fallback to version; author comes
from package.json with fallback to the comma-joined poetry authors. -/
theorem C6_config_values (packageJson poetry sphinxConfig : JObj) :
    (∀ v, packageJson.lookup? "version" = some v →
      confVersion packageJson poetry = v) ∧
    (packageJson.lookup? "version" = none →
      confVersion packageJson poetry = dictGet poetry "version") ∧
    (∀ r, sphinxConfig.lookup? "release" = some r →
      confRelease sphinxConfig (confVersion packageJson poetry) = r) ∧
    (sphinxConfig.lookup? "release" = none →
      confRelease sphinxConfig (confVersion packageJson poetry) =
        confVersion packageJson poetry) ∧
    (∀ authors ss, poetry.lookup? "authors" = some (.arr authors) →
      jlistStrs authors = .ok ss →
      ((∀ a, packageJson.lookup? "author" = some a →
          confAuthor packageJson poetry = .ok a) ∧
        (packageJson.lookup? "author" = none →
          confAuthor packageJson poetry =
            .ok (.str (String.intercalate ", " ss))))) := by
  refine ⟨?_, ?_, ?_, ?_, ?_⟩
  · intro v hv
    rw [confVersion, dictGetD, hv]
    rfl
  · intro hv
    rw [confVersion, dictGetD, hv]
    rfl
  · intro r hr
    rw [confRelease, dictGetD, hr]
    rfl
  · intro hr
    rw [confRelease, dictGetD, hr]
    rfl
  · intro authors ss ha hss
    have hjoin : pyJoin ", " (dictGetD poetry "authors" (.str "Fabian Bühler"))
        = .ok (String.intercalate ", " ss) := by
      rw [dictGetD, ha, Option.getD_some, pyJoin, hss]
      rfl
    constructor
    · intro a haut
      rw [confAuthor, hjoin]
      simp only [Except.map]
      rw [dictGetD, haut]
      rfl
    · intro haut
      rw [confAuthor, hjoin]
      simp only [Except.map]
      rw [dictGetD, haut]
      rfl

/-- `package.json` contents used in the C6 witness. -/
def wPkg : JObj :=
  .cons "version" (.str "0.7.2") (.cons "author" (.str "Fabian") .nil)

/-- `[tool.poetry]` contents used in the C6 witness. -/
def wPoetry : JObj :=
  .cons "authors" (.arr (.cons (.str "A") (.cons (.str "B") .nil))) (.cons "version" (.str "0.0.1") .nil)

theorem C6_config_values_witness :
    confVersion wPkg wPoetry = JVal.str "0.7.2" ∧
    confRelease JObj.nil (confVersion wPkg wPoetry) = confVersion wPkg wPoetry ∧
    confAuthor wPkg wPoetry = Except.ok (JVal.str "Fabian") :=
  ⟨(C6_config_values wPkg wPoetry .nil).1 (.str "0.7.2") rfl,
    (C6_config_values wPkg wPoetry .nil).2.2.2.1 rfl,
    ((C6_config_values wPkg wPoetry .nil).2.2.2.2
      (.cons (.str "A") (.cons (.str "B") .nil)) ["A", "B"] rfl rfl).1 (.str "Fabian") rfl⟩

/-! ## Claim C7: the data flow of `_load_typedoc_output` (lines 98-145) -/

/-- Embeds the file data flow of `_load_typedoc_output`, with file contents
passed explicitly: `typedocJson` is the parse of the `typedoc.json` that the
typedoc subprocess wrote into the sphinx configuration directory.  When
typedoc is invoked (`SKIP_TYPEDOC` false) the value is sanitized, dumped back
into the same file and re-read; the `json.dump`/`json.load` round-trip of the
rewrite is exact by construction of the embedding.  The result pairs the
final file content with the value the function returns. -/
def load_typedoc_output (skipTypedoc : Bool) (base : String) (typedocJson : JVal) :
    Except String (JVal × JVal) :=
  if skipTypedoc then .ok (typedocJson, typedocJson)
  else (sanitize_typedoc_json base typedocJson).map (fun s => (s, s))

/-- C7: `_load_typedoc_output` returns exactly the JSON value parsed from
`typedoc.json`, which equals the file's final content; when typedoc was
invoked that value is the sanitization rewrite of what typedoc emitted, and
when it was skipped it is the file content unchanged. -/
theorem C7_load_typedoc_output (skipTypedoc : Bool) (base : String)
    (typedocJson fileContent returned : JVal)
    (h : load_typedoc_output skipTypedoc base typedocJson = .ok (fileContent, returned)) :
    returned = fileContent ∧
    (skipTypedoc = true → returned = typedocJson) ∧
    (skipTypedoc = false →
      sanitize_typedoc_json base typedocJson = .ok returned) := by
  cases skipTypedoc with
  | false =>
    rw [load_typedoc_output, if_neg (by simp)] at h
    cases hs : sanitize_typedoc_json base typedocJson with
    | error e => rw [hs] at h; exact absurd h (by simp [Except.map])
    | ok s =>
      rw [hs] at h
      simp only [Except.map] at h
      injection h with h
      injection h with h1 h2
      rw [← h1, ← h2]
      exact ⟨rfl, fun hc => absurd hc (by simp), fun _ => rfl⟩
  | true =>
    rw [load_typedoc_output, if_pos rfl] at h
    injection h with h
    injection h with h1 h2
    rw [← h1, ← h2]
    exact ⟨rfl, fun _ => rfl, fun hc => absurd hc (by simp)⟩

theorem C7_load_typedoc_output_witness :
    wOut = wOut ∧ (false = true → wOut = wIn) ∧
    (false = false → sanitize_typedoc_json cBase wIn = Except.ok wOut) :=
  C7_load_typedoc_output false cBase wIn wOut wOut rfl

/-! ## Claim C8: the `sources` search loop of `_convert_node` (lines 241-252) -/

/-- Membership of a value among the entries of a list (Python `x in list`). -/
def listContains (x : JVal) : JList → Bool
  | .nil => false
  | .cons v rest => v = x || listContains x rest

/-- Substring membership on character lists (Python `'sources' in a_string`). -/
def containsSeq (pat : List Char) : List Char → Bool
  | [] => pat = []
  | l@(_ :: rest) => pat.isPrefixOf l || containsSeq pat rest

/-- Python `'sources' in parent`: key test on dicts, element test on lists,
substring test on strings; any other value raises `TypeError`. -/
def pyContainsSources : JVal → Except String Bool
  | .obj o => .ok (o.hasKey "sources")
  | .arr l => .ok (listContains (.str "sources") l)
  | .str s => .ok (containsSeq "sources".data s.data)
  | _ => .error "TypeError: argument is not iterable"

/-- The possible outcomes of the search loop within the given fuel: the
`break` with the found parent, the `while`/`else` clause raising `KeyError`,
or running out of fuel without terminating. -/
inductive SearchOutcome where
  | found (parent : JVal)
  | keyError
  | spin
deriving DecidableEq

/-- Embeds the parent-search loop of `_convert_node` for nodes of kind
`Function`/`Constructor`/`Method`, with fuel counting loop iterations.  The
body is transcribed exactly as written in the source — in particular the
next value of `parent` is `node.get('__parent')`, read from `node`, in every
iteration.  `.spin` marks fuel exhaustion; the loop is started with
`parent = node`. -/
def sourcesSearch (node : JObj) : Nat → JVal → Except String SearchOutcome
  | 0, _ => .ok .spin
  | fuel + 1, parent =>
    if jTruthy parent then
      pyContainsSources parent >>= fun hasSources =>
      if hasSources then .ok (.found parent)
      else sourcesSearch node fuel (dictGet node "__parent")
    else .ok .keyError

/-- A parent dict that is truthy but has no `sources` key. -/
def badParent : JObj := .cons "name" (.str "p") .nil

/-- A `Method` node without `sources` whose `__parent` also lacks them. -/
def badNode : JObj :=
  .cons "kindString" (.str "Method") (.cons "__parent" (.obj badParent) .nil)

theorem sourcesSearch_badParent_spin :
    ∀ fuel, sourcesSearch badNode fuel (JVal.obj badParent) = .ok .spin := by
  intro fuel
  induction fuel with
  | zero => rfl
  | succ n ih =>
    rw [sourcesSearch, if_pos (by decide)]
    rw [show pyContainsSources (JVal.obj badParent) = .ok false from rfl,
      except_bind_ok, if_neg (by simp)]
    rw [show dictGet badNode "__parent" = JVal.obj badParent from rfl]
    exact ih

/-- C8: on a `Method` node without `sources` whose truthy `__parent` also
lacks `sources`, the search loop runs forever — for every amount of fuel it
neither finds a parent with `sources` nor reaches the `KeyError` branch,
because each iteration re-reads `node.get('__parent')` instead of walking up
from `parent`.  This contradicts the claimed termination behaviour. -/
theorem C8_sources_loop_spins :
    ∀ fuel, sourcesSearch badNode fuel (JVal.obj badNode) = .ok .spin := by
  intro fuel
  cases fuel with
  | zero => rfl
  | succ n =>
    rw [sourcesSearch, if_pos (by decide)]
    rw [show pyContainsSources (JVal.obj badNode) = .ok false from rfl,
      except_bind_ok, if_neg (by simp)]
    rw [show dictGet badNode "__parent" = JVal.obj badParent from rfl]
    exact sourcesSearch_badParent_spin n

/-! ## The `_type_name` override of `CustomAnalyzer` (docs/conf.py, lines 171-232)

The recursive calls `self._type_name(...)` descend into sub-nodes retrieved
by dict lookups, so the recursion is embedded with a fuel parameter bounding
the depth; any fuel at least the nesting depth of the node is enough.  The
inherited third-party `super()._type_name` is a parameter `sup`. -/

mutual

/-- Python `repr` of a JSON-loaded value (string escaping simplified to
plain single quotes). -/
def pyRepr : JVal → String
  | .str s => "'" ++ s ++ "'"
  | .num n => toString n
  | .boolV b => if b then "True" else "False"
  | .nullV => "None"
  | .arr l => "[" ++ String.intercalate ", " (pyReprList l) ++ "]"
  | .obj o => "\x7b" ++ String.intercalate ", " (pyReprObj o) ++ "\x7d"

/-- `repr` of the entries of a list. -/
def pyReprList : JList → List String
  | .nil => []
  | .cons v rest => pyRepr v :: pyReprList rest

/-- `repr` of the items of a dict. -/
def pyReprObj : JObj → List String
  | .nil => []
  | .cons k v rest => ("'" ++ k ++ "': " ++ pyRepr v) :: pyReprObj rest

end

/-- Python `str` of a JSON-loaded value: the string itself for strings, the
`repr` rendering otherwise (`True`/`False`/`None`, numbers, containers). -/
def pyStr : JVal → String
  | .str s => s
  | v => pyRepr v

/-- Which code computed the result of `_type_name`: a branch of the
`CustomAnalyzer` override, or the delegated `super()._type_name(type)`. -/
inductive TNBranch where
  | overrideBranch
  | superBranch
deriving DecidableEq

/-- The `literal` branch of the `_type_name` override (lines 224-231):
`type.get('value')` wrapped in double quotes for a string, `null` for `None`
(a stored JSON `null` or an absent key), and `str(value)` otherwise. -/
def literalName (o : JObj) : String :=
  match dictGet o "value" with
  | .str s => "\"" ++ s ++ "\""
  | .nullV => "null"
  | v => pyStr v

/-- One step of the generator
`p.get('name') + ': ' + self._type_name(p.get('type')) for p in ... if p.get('type')`:
`none` when the `if` filter rejects the entry; evaluation order (condition,
then name, then recursive call) is kept. -/
def paramEntryString (rec : JVal → Except String String) (p : JVal) :
    Except String (Option String) :=
  asObj p >>= fun pObj =>
  if jTruthy (dictGet pObj "type") then
    asStr (dictGet pObj "name") >>= fun nm =>
    rec (dictGet pObj "type") >>= fun tn =>
    .ok (some (nm ++ ": " ++ tn))
  else .ok none

/-- The materialised generator over a parameter (or `children`) list. -/
def paramListStrings (rec : JVal → Except String String) :
    JList → Except String (List String)
  | .nil => .ok []
  | .cons p rest =>
    paramEntryString rec p >>= fun head =>
    paramListStrings rec rest >>= fun tail =>
    .ok (match head with | some s => s :: tail | none => tail)

/-- One signature of a reflection type with signatures:
`'(' + ', '.join(params) + ') => ' + self._type_name(signature.get('type'))`. -/
def signatureName (rec : JVal → Except String String) (sig : JVal) :
    Except String String :=
  asObj sig >>= fun sObj =>
  asList (dictGetD sObj "parameters" (.arr .nil)) >>= fun pl =>
  paramListStrings rec pl >>= fun ps =>
  rec (dictGet sObj "type") >>= fun tn =>
  .ok ("(" ++ String.intercalate ", " ps ++ ") => " ++ tn)

/-- The `for signature in declaration.get('signatures')` loop. -/
def signaturesStrings (rec : JVal → Except String String) :
    JList → Except String (List String)
  | .nil => .ok []
  | .cons sig rest =>
    signatureName rec sig >>= fun s =>
    signaturesStrings rec rest >>= fun ss =>
    .ok (s :: ss)

/-- One entry of the `indexSignature` handling:
`'[' + inner_text + ']: ' + self._type_name(sig.get('type'))`, where
`inner_text` renders the first parameter when `sig.get('parameters')` is
truthy. -/
def indexSigEntry (rec : JVal → Except String String) (sig : JVal) :
    Except String String :=
  asObj sig >>= fun sObj =>
  (if jTruthy (dictGet sObj "parameters") then
    asList (dictGet sObj "parameters") >>= fun pl =>
    (match pl with
     | .cons p _ =>
       asObj p >>= fun pObj =>
       asStr (dictGet pObj "name") >>= fun nm =>
       rec (dictGet pObj "type") >>= fun tn =>
       .ok (nm ++ ": " ++ tn)
     | .nil => .error "IndexError: list index out of range")
   else .ok "") >>= fun inner =>
  rec (dictGet sObj "type") >>= fun tn =>
  .ok ("[" ++ inner ++ "]: " ++ tn)

/-- The `for sig in index_signature` loop. -/
def indexSigList (rec : JVal → Except String String) :
    JList → Except String (List String)
  | .nil => .ok []
  | .cons sig rest =>
    indexSigEntry rec sig >>= fun s =>
    indexSigList rec rest >>= fun ss =>
    .ok (s :: ss)

/-- The `reflection` branch of `_type_name` (lines 181-214).  `Except.ok
none` means neither `signatures` nor `children` of the declaration were
truthy, so control falls through to `super()._type_name(type)`.  A
non-dict `indexSignature` value is wrapped into a one-entry list exactly
when it is a dict, as the `isinstance` check does. -/
def reflectionName (rec : JVal → Except String String) (o : JObj) :
    Except String (Option String) :=
  asObj (dictGetD o "declaration" (.obj .nil)) >>= fun dObj =>
  if jTruthy (dictGet dObj "signatures") then
    asList (dictGet dObj "signatures") >>= fun sl =>
    signaturesStrings rec sl >>= fun names =>
    .ok (some (String.intercalate " " names))
  else if jTruthy (dictGet dObj "children") then
    asList (dictGet dObj "children") >>= fun cl =>
    paramListStrings rec cl >>= fun vars =>
    (if jTruthy (dictGet dObj "indexSignature") then
      (match dictGet dObj "indexSignature" with
       | .obj io => .ok (JList.cons (.obj io) .nil)
       | .arr l => .ok l
       | _ => .error "TypeError: not iterable") >>= fun isigL =>
      indexSigList rec isigL >>= fun extras =>
      .ok ("\x7b" ++ String.intercalate ", " (String.intercalate ", " vars :: extras) ++ "\x7d")
    else .ok ("\x7b" ++ String.intercalate ", " vars ++ "\x7d")) >>= fun s =>
    .ok (some s)
  else .ok none

/-- The `typeParameter` branch of `_type_name` (lines 215-223): the
constraint must be a dict (`type.get('constraint').get('type')` raises
`AttributeError` otherwise); a `union` or `reference` constraint yields
`name + ' extends ' + rendered constraint`, anything else just the name
(after a diagnostic print); the final `' '.join(names)` raises `TypeError`
for a non-string name. -/
def typeParameterName (rec : JVal → Except String String) (o : JObj) :
    Except String String :=
  asObj (dictGet o "constraint") >>= fun cObj =>
  if dictGet cObj "type" = JVal.str "union" ∨ dictGet cObj "type" = JVal.str "reference" then
    rec (dictGet o "constraint") >>= fun tn =>
    asStr (dictGet o "name") >>= fun nm =>
    .ok (nm ++ " extends " ++ tn)
  else
    asStr (dictGet o "name") >>= fun nm =>
    .ok nm

/-- Embeds the `_type_name` override of `CustomAnalyzer`.  The argument is a
JSON value with `nullV` playing Python's `None`; a non-dict, non-`None`
argument makes `type.get('type')` raise `AttributeError`.  The result is
tagged with the code that produced it: `overrideBranch` for a `return`
inside a branch of the override, `superBranch` for the final
`return super()._type_name(type)`. -/
def typeNameF (sup : JVal → Except String String) :
    Nat → JVal → Except String (TNBranch × String)
  | 0, _ => .error "RecursionError: maximum recursion depth exceeded"
  | _ + 1, .nullV => .ok (.overrideBranch, "NONE")
  | fuel + 1, .obj o =>
    if dictGet o "type" = JVal.str "reflection" then
      reflectionName (fun v => (typeNameF sup fuel v).map Prod.snd) o >>= fun r =>
      (match r with
       | some s => .ok (.overrideBranch, s)
       | none => (sup (.obj o)).map (fun s => (.superBranch, s)))
    else if dictGet o "type" = JVal.str "typeParameter" then
      (typeParameterName (fun v => (typeNameF sup fuel v).map Prod.snd) o).map
        (fun s => (.overrideBranch, s))
    else if dictGet o "type" = JVal.str "literal" then
      .ok (.overrideBranch, literalName o)
    else (sup (.obj o)).map (fun s => (.superBranch, s))
  | _ + 1, _ => .error "AttributeError"

/-! ## Claims C3, C4, C10 -/

/-- A base implementation whose answers are distinguishable from any override
output. -/
def supBase : JVal → Except String String := fun _ => .ok "BASE"

/-- A type node whose `type` field is `union`. -/
def unionNode : JObj := .cons "type" (.str "union") .nil

/-- A `reflection` type node whose declaration carries `signatures` and
`children` that are present but empty, hence falsy. -/
def reflEmptyDecl : JObj :=
  .cons "type" (.str "reflection")
    (.cons "declaration"
      (.obj (.cons "signatures" (.arr .nil) (.cons "children" (.arr .nil) .nil))) .nil)

/-- C3 counterexample, in two parts.  First, a `union` type node is not
handled by any branch of the override — the result is computed by (and
tagged as coming from) `super()._type_name`, whose answer `BASE` comes back
unchanged: the override has no union branch (`union` appears in it only as
a constraint kind inside the `typeParameter` branch).  Second, a
`reflection` node whose declaration has falsy `signatures` and `children`
also falls through to `super()._type_name` — the reflection branch returns
only when one of the two is truthy.  Both parts refute the claim that every
reflection, union and literal node is computed by a branch of the override,
and together they force exactly the amendment's carve-outs. -/
theorem C3_counterexample :
    (dictGet unionNode "type" = JVal.str "union" ∧
      typeNameF supBase 1 (JVal.obj unionNode) = .ok (.superBranch, "BASE")) ∧
    (dictGet reflEmptyDecl "type" = JVal.str "reflection" ∧
      jTruthy (dictGet reflEmptyDecl "declaration") = true ∧
      typeNameF supBase 1 (JVal.obj reflEmptyDecl) = .ok (.superBranch, "BASE")) :=
  ⟨⟨rfl, rfl⟩, rfl, rfl, rfl⟩

theorem reflectionName_not_none (rec : JVal → Except String String)
    (o : JObj) (dObj : JObj)
    (hd : asObj (dictGetD o "declaration" (.obj .nil)) = .ok dObj)
    (ht : jTruthy (dictGet dObj "signatures") = true ∨
      jTruthy (dictGet dObj "children") = true) :
    reflectionName rec o ≠ .ok none := by
  intro hr
  rw [reflectionName, hd, except_bind_ok] at hr
  by_cases hsig : jTruthy (dictGet dObj "signatures") = true
  · rw [if_pos hsig] at hr
    cases h1 : asList (dictGet dObj "signatures") with
    | error e => rw [h1, except_bind_error] at hr; exact absurd hr (by simp)
    | ok sl =>
      rw [h1, except_bind_ok] at hr
      cases h2 : signaturesStrings rec sl with
      | error e => rw [h2, except_bind_error] at hr; exact absurd hr (by simp)
      | ok names =>
        rw [h2, except_bind_ok] at hr
        injection hr with hr
        exact absurd hr (by simp)
  · rw [if_neg hsig] at hr
    have hch : jTruthy (dictGet dObj "children") = true := ht.resolve_left hsig
    rw [if_pos hch] at hr
    cases h1 : asList (dictGet dObj "children") with
    | error e => rw [h1, except_bind_error] at hr; exact absurd hr (by simp)
    | ok cl =>
      rw [h1, except_bind_ok] at hr
      cases h2 : paramListStrings rec cl with
      | error e => rw [h2, except_bind_error] at hr; exact absurd hr (by simp)
      | ok vars =>
        rw [h2, except_bind_ok] at hr
        cases h3 : (if jTruthy (dictGet dObj "indexSignature") then
            (match dictGet dObj "indexSignature" with
             | .obj io => .ok (JList.cons (.obj io) .nil)
             | .arr l => .ok l
             | _ => .error "TypeError: not iterable") >>= fun isigL =>
            indexSigList rec isigL >>= fun extras =>
            .ok ("\x7b" ++ String.intercalate ", "
              (String.intercalate ", " vars :: extras) ++ "\x7d")
          else .ok ("\x7b" ++ String.intercalate ", " vars ++ "\x7d")) with
        | error e => rw [h3, except_bind_error] at hr; exact absurd hr (by simp)
        | ok s =>
          rw [h3, except_bind_ok] at hr
          injection hr with hr
          exact absurd hr (by simp)

/-- C3 (amended): for type nodes whose `type` is `literal`, and for
`reflection` nodes whose declaration carries truthy `signatures` or
`children`, the returned string is computed by a branch of the override;
nodes whose `type` is `union` are delegated to the unpatched base
implementation. -/
theorem C3_override_dispatch (sup : JVal → Except String String)
    (fuel : Nat) (o : JObj) :
    (dictGet o "type" = JVal.str "literal" →
      ∀ b s, typeNameF sup (fuel + 1) (JVal.obj o) = .ok (b, s) →
        b = .overrideBranch) ∧
    (dictGet o "type" = JVal.str "reflection" →
      ∀ dObj, asObj (dictGetD o "declaration" (.obj .nil)) = .ok dObj →
      (jTruthy (dictGet dObj "signatures") = true ∨
        jTruthy (dictGet dObj "children") = true) →
      ∀ b s, typeNameF sup (fuel + 1) (JVal.obj o) = .ok (b, s) →
        b = .overrideBranch) ∧
    (dictGet o "type" = JVal.str "union" →
      typeNameF sup (fuel + 1) (JVal.obj o) =
        (sup (JVal.obj o)).map (fun s => (TNBranch.superBranch, s))) := by
  refine ⟨?_, ?_, ?_⟩
  · intro h1 b s h2
    rw [typeNameF, h1, if_neg (by decide), if_neg (by decide), if_pos rfl] at h2
    injection h2 with h2
    injection h2 with hb hs
    exact hb.symm
  · intro h1 dObj hd ht b s h2
    rw [typeNameF, h1, if_pos rfl] at h2
    cases hr : reflectionName (fun v => (typeNameF sup fuel v).map Prod.snd) o with
    | error e => rw [hr, except_bind_error] at h2; exact absurd h2 (by simp)
    | ok r =>
      rw [hr, except_bind_ok] at h2
      cases r with
      | none =>
        exact absurd hr (reflectionName_not_none _ o dObj hd ht)
      | some s' =>
        injection h2 with h2
        injection h2 with hb hs
        exact hb.symm
  · intro h1
    rw [typeNameF, h1, if_neg (by decide), if_neg (by decide), if_neg (by decide)]

theorem C3_override_dispatch_witness :
    typeNameF supBase 1 (JVal.obj unionNode) =
      (supBase (JVal.obj unionNode)).map (fun s => (TNBranch.superBranch, s)) :=
  (C3_override_dispatch supBase 0 unionNode).2.2 rfl

/-- C4: on a `literal` type node the full `_type_name` dispatch ends in the
literal branch of the override and returns the value wrapped in double
quotes for a string value, the string `null` for a `None` value (a JSON
`null` or an absent `value` key), and Python's default string conversion of
the value otherwise. -/
theorem C4_literal_branch (sup : JVal → Except String String)
    (fuel : Nat) (o : JObj)
    (h : dictGet o "type" = JVal.str "literal") :
    (∀ s, dictGet o "value" = JVal.str s →
      typeNameF sup (fuel + 1) (JVal.obj o) =
        .ok (.overrideBranch, "\"" ++ s ++ "\"")) ∧
    (dictGet o "value" = JVal.nullV →
      typeNameF sup (fuel + 1) (JVal.obj o) = .ok (.overrideBranch, "null")) ∧
    (∀ v, dictGet o "value" = v → (∀ s, v ≠ JVal.str s) → v ≠ JVal.nullV →
      typeNameF sup (fuel + 1) (JVal.obj o) =
        .ok (.overrideBranch, pyStr v)) := by
  have key : typeNameF sup (fuel + 1) (JVal.obj o) =
      .ok (.overrideBranch, literalName o) := by
    rw [typeNameF, h, if_neg (by decide), if_neg (by decide), if_pos rfl]
  refine ⟨?_, ?_, ?_⟩
  · intro s hv
    rw [key, literalName, hv]
  · intro hv
    rw [key, literalName, hv]
  · intro v hv hnstr hnnull
    rw [key, literalName, hv]
    cases v with
    | str s => exact absurd rfl (hnstr s)
    | nullV => exact absurd rfl hnnull
    | num n => rfl
    | boolV b => rfl
    | arr l => rfl
    | obj p => rfl

/-- The literal node used in the C4 witness. -/
def wLit : JObj := .cons "type" (.str "literal") (.cons "value" (.str "a") .nil)

theorem C4_literal_branch_witness :
    typeNameF supBase 1 (JVal.obj wLit) =
      .ok (.overrideBranch, "\"" ++ "a" ++ "\"") :=
  (C4_literal_branch supBase 0 wLit rfl).1 "a" rfl

/-- C10: `_type_name` is total on a missing type: called with `None` it
returns the string `NONE` through the override instead of failing. -/
theorem C10_type_name_none (sup : JVal → Except String String) (fuel : Nat) :
    typeNameF sup (fuel + 1) JVal.nullV = .ok (.overrideBranch, "NONE") := rfl

/-! ## Claim C2: description rewriting in `_top_level_properties`
(docs/conf.py, lines 43-54, 163-169, 320-331) -/

/-- An opening curly brace character. -/
def lbrace : Char := Char.ofNat 123

/-- A closing curly brace character. -/
def rbrace : Char := Char.ofNat 125

/-- Splits a character list at the first closing brace, returning the field
text and the remainder. -/
def findField : List Char → Option (List Char × List Char)
  | [] => none
  | c :: rest =>
    if c = rbrace then some ([], rest)
    else (findField rest).map (fun q => (c :: q.1, q.2))

/-- One-positional-argument model of Python `str.format`, covering the
template strings used here: an empty replacement field inserts the argument,
doubled braces escape, a non-empty replacement field is treated as a keyword
lookup and raises `KeyError` (none of these templates pass keywords), and an
unmatched brace raises `ValueError`.  Fuel: every step consumes at least one
character of the template. -/
def pyFormatAux (arg : String) : Nat → List Char → Except String (List Char)
  | _, [] => .ok []
  | 0, _ :: _ => .error "RecursionError"
  | fuel + 1, c :: rest =>
    if c = lbrace then
      match rest with
      | [] => .error "ValueError: Single brace encountered"
      | c2 :: rest2 =>
        if c2 = lbrace then (pyFormatAux arg fuel rest2).map (fun l => lbrace :: l)
        else
          match findField (c2 :: rest2) with
          | none => .error "ValueError: expected closing brace"
          | some q =>
            if q.1 = [] then (pyFormatAux arg fuel q.2).map (fun l => arg.data ++ l)
            else .error ("KeyError: " ++ String.mk q.1)
    else if c = rbrace then
      match rest with
      | c2 :: rest2 =>
        if c2 = rbrace then (pyFormatAux arg fuel rest2).map (fun l => rbrace :: l)
        else .error "ValueError: Single brace encountered"
      | [] => .error "ValueError: Single brace encountered"
    else (pyFormatAux arg fuel rest).map (fun l => c :: l)

/-- Python `template.format(arg)`. -/
def pyFormat (template arg : String) : Except String String :=
  (pyFormatAux arg template.data.length template.data).map String.mk

/-- The ordered replacer table `TYPE_LINK_REPLACERS` (lines 45-54); a Python
dict iterates in insertion order. -/
def TYPE_LINK_REPLACERS : List (String × String) :=
  [("Module", ":js:mod:`~\x7b\x7d`"),
   ("Function", ":js:func:`~\x7b\x7d`"),
   ("Method", ":js:meth:`~\x7b\x7d`"),
   ("Class", ":js:class:`~\x7b\x7d`"),
   ("Interface", ":js:class:`~\x7b\x7d`"),
   ("Enumeration", ":js:class:`~\x7b\x7d`"),
   ("Property", ":js:attr:`~\x7b\x7d`"),
   ("Accessor", ":js:meth:`~\x7b\x7d`")]

/-- Embeds `_get_js_role_for_type` (lines 163-169): the kinds are tried in
table order against the `(name, kind)` index built by `_convert_all_nodes`;
the first hit formats its replacer with the type name; with no hit the
default replacer is formatted when one was given, else the name is returned
as is. -/
def get_js_role_for_type (index : List (String × String)) (typeName : String)
    (defaultReplacer : Option String) : Except String String :=
  match TYPE_LINK_REPLACERS.find? (fun kr => index.contains (typeName, kr.1)) with
  | some kr => pyFormat kr.2 typeName
  | none =>
    match defaultReplacer with
    | some d => pyFormat d typeName
    | none => .ok typeName

/-- Word characters of the regex class `\w` (ASCII model). -/
def isWordChar (c : Char) : Bool := c.isAlphanum || c = '_'

/-- Whitespace characters of the regex class `\s` (ASCII model). -/
def isPySpace (c : Char) : Bool :=
  c = ' ' || c = '\t' || c = '\n' || c = '\r' || c = '\x0b' || c = '\x0c'

/-- Tries to match `LINK_REGEX` — the pattern `\{\@link\s+(\w+)\s*\}` of
line 43 — at the start of the character list; on success returns the
captured name and the characters after the match. -/
def tryMatchLink (l : List Char) : Option (String × List Char) :=
  match l with
  | c0 :: c1 :: c2 :: c3 :: c4 :: c5 :: rest =>
    if c0 = lbrace && c1 = '@' && c2 = 'l' && c3 = 'i' && c4 = 'n' && c5 = 'k' then
      if rest.takeWhile isPySpace = [] then none
      else
        let r1 := rest.dropWhile isPySpace
        let w := r1.takeWhile isWordChar
        if w = [] then none
        else
          match (r1.dropWhile isWordChar).dropWhile isPySpace with
          | c :: r4 => if c = rbrace then some (String.mk w, r4) else none
          | [] => none
    else none
  | _ => none

/-- The raw default replacer `r"{\@link ``\1``}"` that
`_top_level_properties` passes to `_get_js_role_for_type` (line 327). -/
def linkFallback : String := "\x7b\\@link ``\\1``\x7d"

/-- The scan of `LINK_REGEX.sub(lambda m: self._get_js_role_for_type(m[1],
r"..."), description)`: at each position the pattern is tried; on a match
the replacement string is emitted and the scan continues after the match
(non-overlapping, left to right).  Fuel: every step consumes at least one
character. -/
def linkSubAux (index : List (String × String)) :
    Nat → List Char → Except String (List Char)
  | _, [] => .ok []
  | 0, _ :: _ => .error "RecursionError"
  | fuel + 1, c :: rest =>
    match tryMatchLink (c :: rest) with
    | some q =>
      get_js_role_for_type index q.1 (some linkFallback) >>= fun repl =>
      linkSubAux index fuel q.2 >>= fun tail =>
      .ok (repl.data ++ tail)
    | none => (linkSubAux index fuel rest).map (fun t => c :: t)

/-- Embeds the description rewriting of `_top_level_properties` (lines
320-331): when the description is truthy, every single backtick is doubled
and then every `LINK_REGEX` match is replaced through
`_get_js_role_for_type` with the raw fallback as default replacer. -/
def top_level_description (index : List (String × String))
    (description : String) : Except String String :=
  if description = "" then .ok description
  else
    (linkSubAux index (pyReplace description "`" "``").data.length
      (pyReplace description "`" "``").data).map String.mk

/-- C2: the kind-matching path behaves as the claim says — backticks are
doubled first and `\x7b@link Foo\x7d` becomes the Sphinx role for the first
kind (here `Function`) whose `(name, kind)` pair is in the index — but the
no-match fallback does not produce the claimed literal: `str.format` parses
the braces of the raw default replacer as a replacement field named
`\@link ``\1``` and raises `KeyError`, crashing the build instead of
emitting the fallback text. -/
theorem C2_link_replacement :
    top_level_description [("Foo", "Function")] "See \x7b@link Foo\x7d and `x`"
      = .ok "See :js:func:`~Foo` and ``x``" ∧
    top_level_description [] "\x7b@link Unknown\x7d"
      = .error ("KeyError: " ++ "\\@link ``\\1``") :=
  ⟨rfl, rfl⟩

end GrapheditorDocs
